import Mathlib

/-!
Shallow embedding of the judge-bridge grading core of this repository:
`judge/bridge/judgecallback.py` (the `DjangoJudgeHandler` packet handlers,
test-case aggregation and scoring, live-update rate limiting) and
`judge/judgeapi.py` (`judge_submission` dispatch).  Database rows are
modelled as explicit state (a partial map for submissions, a list for
test-case rows), the event poster as a list of emitted events, and the
wall clock as an explicit `now` argument.  Python floats are modelled as
rationals.
-/

namespace JudgeBridge

/-- Python's `round(x, 1)` at the integer scale: round to nearest, ties to
even (banker's rounding, which Python's `round` performs on exact halves). -/
def roundHalfEven (q : ℚ) : ℤ :=
  if q - ⌊q⌋ < 1/2 then ⌊q⌋
  else if 1/2 < q - ⌊q⌋ then ⌊q⌋ + 1
  else if ⌊q⌋ % 2 = 0 then ⌊q⌋ else ⌊q⌋ + 1
/-- Python's `round(x, 1)`: round to one decimal digit. -/
def pyRound1 (q : ℚ) : ℚ := (roundHalfEven (q * 10) : ℚ) / 10
/-- `judge/models`: the problem fields read by the grading path.
`partialCredit` models the source's `partial` field. -/
structure Problem where
  points : ℚ
  partialCredit : Bool
  is_public : Bool
deriving DecidableEq
/-- `judge/models`: the submission fields written by the grading path. -/
structure Submission where
  id : Nat
  status : String
  result : Option String
  error : Option String
  time : Option ℚ
  memory : Option ℚ
  points : Option ℚ
  case_points : ℚ
  case_total : ℚ
  current_testcase : Nat
  is_pretested : Bool
  batch : Bool
  judged_on : Option String
  problem : Problem
deriving DecidableEq
/-- `judge/models`: one `SubmissionTestCase` row.  `casePos` models the
source's `case` field (a Lean keyword). -/
structure SubmissionTestCase where
  submission_id : Nat
  casePos : Nat
  status : String
  time : ℚ
  memory : ℚ
  points : ℚ
  total : ℚ
  batch : Option Nat
  feedback : String
  output : String
deriving DecidableEq
/-- The submission table: id to row. -/
def DB : Type := Nat → Option Submission
def dbSet (db : DB) (id : Nat) (sub : Submission) : DB :=
  fun i => if i = id then some sub else db i
/-- A channel of the event poster: `sub_<id>` or the global feed. -/
inductive Channel where
  | subChan (id : Nat)
  | submissions
deriving DecidableEq
/-- One `event.post` call, reduced to channel and event type. -/
structure Event where
  channel : Channel
  etype : String
deriving DecidableEq
/-- `UPDATE_RATE_LIMIT = 5` in `judgecallback.py`. -/
def UPDATE_RATE_LIMIT : Nat := 5
/-- `UPDATE_RATE_TIME = 0.5` in `judgecallback.py`. -/
def UPDATE_RATE_TIME : ℚ := 1/2
/-- The per-session `update_counter` dict: submission id to
(updates, last reset). -/
def Counter : Type := Nat → Option (Nat × ℚ)
def counterSet (ctr : Counter) (id : Nat) (cnt : Nat) (reset : ℚ) : Counter :=
  fun i => if i = id then some (cnt, reset) else ctr i
/-- The rate-limiting block of `on_test_case`: given the counter, the
submission id and the current time, return the updated counter and the
`do_post` flag.  The source's `del` followed by the unconditional
re-insertion of `(1, TIMER())` collapses to a single overwrite. -/
def rateLimit (ctr : Counter) (id : Nat) (now : ℚ) : Counter × Bool :=
  match ctr id with
  | some (cnt, reset) =>
    if UPDATE_RATE_TIME < now - reset then
      (counterSet ctr id 1 now, true)
    else if UPDATE_RATE_LIMIT < cnt + 1 then
      (counterSet ctr id (cnt + 1) reset, false)
    else
      (counterSet ctr id (cnt + 1) reset, true)
  | none => (counterSet ctr id 1 now, true)
/-- `DjangoJudgeHandler` session state used by the embedded handlers:
the in-flight submission (`_working`, from the base session), the current
batch flag and id, and the rate-limit counters. -/
structure Session where
  working : Option Nat
  in_batch : Bool
  batch_id : Nat
  update_counter : Counter
/-- The state a handler returns: submission table, test-case rows, events
posted during the call, in order. -/
structure DbOut where
  db : DB
  cases : List SubmissionTestCase
  events : List Event
/-- The bitmask decode in `on_test_case`, lines 302-317: first set flag
wins, in source order TLE(4), MLE(8), OLE(64), RTE(2), IR(16), WA(1),
SC(32), default AC. -/
def decodeStatus (status : Nat) : String :=
  if status &&& 4 != 0 then "TLE"
  else if status &&& 8 != 0 then "MLE"
  else if status &&& 64 != 0 then "OLE"
  else if status &&& 2 != 0 then "RTE"
  else if status &&& 16 != 0 then "IR"
  else if status &&& 1 != 0 then "WA"
  else if status &&& 32 != 0 then "SC"
  else "AC"
/-- `status_codes` in `on_grading_end`: result tokens in ascending
severity as indexed by the aggregation loop. -/
def status_codes : List String := ["SC", "AC", "WA", "MLE", "TLE", "IR", "RTE", "OLE"]
/-- The accumulator of the `on_grading_end` loop: running time sum, max
memory, standalone points/total sums, worst status index, and the
`batches` dict as an insertion-ordered association list. -/
structure GradeAcc where
  time : ℚ
  memory : ℚ
  points : ℚ
  total : ℚ
  status : Nat
  batches : List (Nat × ℚ × ℚ)
deriving DecidableEq
/-- The `batches` dict update of `on_grading_end`, lines 163-167: an
existing batch entry becomes (min points, max total); a new batch id is
inserted with the case's points and total. -/
def updateBatches (bs : List (Nat × ℚ × ℚ)) (b : Nat) (p t : ℚ) : List (Nat × ℚ × ℚ) :=
  if (bs.find? fun e => e.1 == b).isSome then
    bs.map fun e => if e.1 == b then (e.1, min e.2.1 p, max e.2.2 t) else e
  else
    bs ++ [(b, p, t)]
/-- One iteration of the `on_grading_end` case loop, lines 157-171.
Python's `not case.batch` is true both for `None` and for batch id `0`,
so both are treated as standalone.  `List.indexOf` models
`status_codes.index` (valid statuses only reach index at most 7). -/
def stepCase (acc : GradeAcc) (c : SubmissionTestCase) : GradeAcc :=
  let acc := { acc with time := acc.time + c.time }
  let acc :=
    match c.batch with
    | none => { acc with points := acc.points + c.points, total := acc.total + c.total }
    | some b =>
      if b = 0 then { acc with points := acc.points + c.points, total := acc.total + c.total }
      else { acc with batches := updateBatches acc.batches b c.points c.total }
  let acc := { acc with memory := max acc.memory c.memory }
  let i := status_codes.indexOf c.status
  if acc.status < i then { acc with status := i } else acc
/-- The full `on_grading_end` case loop starting from the zero
accumulator. -/
def gradeAgg (cs : List SubmissionTestCase) : GradeAcc :=
  cs.foldl stepCase ⟨0, 0, 0, 0, 0, []⟩
/-- `points` after the batch loop and `round(points, 1)` in
`on_grading_end`. -/
def aggPoints (cs : List SubmissionTestCase) : ℚ :=
  pyRound1 ((gradeAgg cs).points + ((gradeAgg cs).batches.map fun e => e.2.1).sum)
/-- `total` after the batch loop and `round(total, 1)` in
`on_grading_end`. -/
def aggTotal (cs : List SubmissionTestCase) : ℚ :=
  pyRound1 ((gradeAgg cs).total + ((gradeAgg cs).batches.map fun e => e.2.2).sum)
/-- `sub_points` in `on_grading_end`, lines 182-184: the rounded scaled
score, forced to 0 for non-partial problems unless it equals the
problem's points. -/
def finalSubPoints (points total probPoints : ℚ) (partialCredit : Bool) : ℚ :=
  let sp := pyRound1 (if 0 < total then points / total * probPoints else 0)
  if !partialCredit && sp ≠ probPoints then 0 else sp
/-- `on_submission_processing`, lines 92-112.  `judge` is the result of
the `Judge.objects.get(name=self.name)` lookup (`none` models the caught
`Judge.DoesNotExist`). -/
def on_submission_processing (db : DB) (cases : List SubmissionTestCase)
    (judge : Option String) (sid : Nat) : Except String DbOut :=
  match db sid with
  | none => .ok ⟨db, cases, []⟩
  | some submission =>
    let submission :=
      match judge with
      | some j => { submission with judged_on := some j }
      | none => submission
    let submission := { submission with status := "P" }
    .ok ⟨dbSet db sid submission, cases,
      ⟨.subChan sid, "processing"⟩ ::
        if submission.problem.is_public then [⟨.submissions, "update-submission"⟩] else []⟩
/-- `on_grading_begin`, lines 114-134.  The base-class hook it calls is
not part of this repository's sources; per the spec it only does session
bookkeeping, so it is modelled as a no-op on the grading state. -/
def on_grading_begin (db : DB) (cases : List SubmissionTestCase)
    (sid : Nat) (pretested : Bool) : Except String DbOut :=
  match db sid with
  | none => .ok ⟨db, cases, []⟩
  | some submission =>
    let submission := { submission with
      status := "G", is_pretested := pretested, current_testcase := 1, batch := false }
    .ok ⟨dbSet db sid submission,
      cases.filter fun c => !(c.submission_id == sid),
      ⟨.subChan sid, "grading-begin"⟩ ::
        if submission.problem.is_public then [⟨.submissions, "update-submission"⟩] else []⟩
/-- `on_grading_end`, lines 141-221.  The contest branch, the user's
points recomputation and the cache invalidation act on entities outside
the grading state modelled here and are omitted; `status_codes.getD`
models the `status_codes[status]` index (always in bounds for rows
written by `on_test_case`). -/
def on_grading_end (db : DB) (cases : List SubmissionTestCase) (sid : Nat) :
    Except String DbOut :=
  match db sid with
  | none => .ok ⟨db, cases, []⟩
  | some submission =>
    let mycases := cases.filter fun c => c.submission_id == sid
    let acc := gradeAgg mycases
    let points := pyRound1 (acc.points + (acc.batches.map fun e => e.2.1).sum)
    let total := pyRound1 (acc.total + (acc.batches.map fun e => e.2.2).sum)
    let sub_points := finalSubPoints points total submission.problem.points
      submission.problem.partialCredit
    let submission := { submission with
      status := "D", time := some acc.time, memory := some acc.memory,
      case_points := points, case_total := total,
      points := some sub_points,
      result := some (status_codes.getD acc.status "") }
    .ok ⟨dbSet db sid submission, cases,
      ⟨.subChan sid, "grading-end"⟩ ::
        if submission.problem.is_public then [⟨.submissions, "done-submission"⟩] else []⟩
/-- `on_compile_error`, lines 223-241. -/
def on_compile_error (db : DB) (cases : List SubmissionTestCase)
    (sid : Nat) (log : String) : Except String DbOut :=
  match db sid with
  | none => .ok ⟨db, cases, []⟩
  | some submission =>
    let submission := { submission with status := "CE", result := some "CE", error := some log }
    .ok ⟨dbSet db sid submission, cases,
      ⟨.subChan sid, "compile-error"⟩ ::
        if submission.problem.is_public then [⟨.submissions, "update-submission"⟩] else []⟩
/-- `on_compile_message`, lines 243-254. -/
def on_compile_message (db : DB) (cases : List SubmissionTestCase)
    (sid : Nat) (log : String) : Except String DbOut :=
  match db sid with
  | none => .ok ⟨db, cases, []⟩
  | some submission =>
    let submission := { submission with error := some log }
    .ok ⟨dbSet db sid submission, cases, [⟨.subChan sid, "compile-message"⟩]⟩
/-- `on_internal_error`, lines 256-273. -/
def on_internal_error (db : DB) (cases : List SubmissionTestCase)
    (sid : Nat) (message : String) : Except String DbOut :=
  match db sid with
  | none => .ok ⟨db, cases, []⟩
  | some submission =>
    let submission := { submission with status := "IE", result := some "IE", error := some message }
    .ok ⟨dbSet db sid submission, cases,
      ⟨.subChan sid, "internal-error"⟩ ::
        if submission.problem.is_public then [⟨.submissions, "update-submission"⟩] else []⟩
/-- `on_submission_terminated`, lines 275-291.  Note that for non-public
problems the source returns before posting either event. -/
def on_submission_terminated (db : DB) (cases : List SubmissionTestCase)
    (sid : Nat) : Except String DbOut :=
  match db sid with
  | none => .ok ⟨db, cases, []⟩
  | some submission =>
    let submission := { submission with status := "AB", result := some "AB" }
    .ok ⟨dbSet db sid submission, cases,
      if submission.problem.is_public then
        [⟨.subChan sid, "aborted-submission"⟩, ⟨.submissions, "update-submission"⟩]
      else []⟩
/-- The `SubmissionTestCase` row built by `on_test_case`, lines 300-324. -/
def mkRow (sess : Session) (sid position status : Nat) (time memory points total : ℚ)
    (feedback : Option String) (output : String) : SubmissionTestCase where
  submission_id := sid
  casePos := position
  status := decodeStatus status
  time := time
  memory := memory
  points := points
  total := total
  batch := if sess.in_batch then some sess.batch_id else none
  feedback := feedback.getD ""
  output := output
/-- `on_test_case`, lines 293-358: persist the decoded row, advance
`current_testcase`, then run the rate limiter, which only gates the event
posting.  `now` models `TIMER()`. -/
def on_test_case (sess : Session) (db : DB) (cases : List SubmissionTestCase)
    (sid position status : Nat) (time memory points total : ℚ)
    (feedback : Option String) (output : String) (now : ℚ) :
    Except String (Session × DbOut) :=
  match db sid with
  | none => .ok (sess, ⟨db, cases, []⟩)
  | some submission =>
    let test_case := mkRow sess sid position status time memory points total feedback output
    let submission := { submission with current_testcase := position + 1 }
    let db := dbSet db sid submission
    let cases := cases ++ [test_case]
    let rl := rateLimit sess.update_counter sid now
    let sess := { sess with update_counter := rl.1 }
    let events :=
      if rl.2 then
        ⟨.subChan sid, "test-case"⟩ ::
          if submission.problem.is_public then [⟨.submissions, "update-submission"⟩] else []
      else []
    .ok (sess, ⟨db, cases, events⟩)
/-- `on_close`, lines 35-40: if a submission is still assigned to the
session (`self._working`), force its status to `IE`.  The base-class
`on_close` touches only session internals and is modelled as a no-op;
the uncaught `Submission.objects.get` is modelled by the error case. -/
def on_close (sess : Session) (db : DB) : Except String DB :=
  match sess.working with
  | none => .ok db
  | some id =>
    match db id with
    | none => .error "Submission.DoesNotExist"
    | some submission => .ok (dbSet db id { submission with status := "IE" })
/-- The reply to a `submission-request` in `judgeapi.py`. -/
structure Response where
  name : String
  submission_id : Nat
deriving DecidableEq
/-- `judge_submission` in `judgeapi.py`, lines 42-81.  `pretestLookup` is
the `ContestSubmission` query result (`none` models the caught
`IndexError`); `transport` is the outcome of `judge_request`, with
`.error` standing for any raised exception.  The returned Bool is the
source's `success` flag. -/
def judge_submission (sub : Submission) (cases : List SubmissionTestCase)
    (pretestLookup : Option Bool) (transport : Except String Response) :
    (Submission × List SubmissionTestCase) × Bool :=
  let sub := { sub with
    time := none, memory := none, points := none, result := none, error := none }
  let sub :=
    match pretestLookup with
    | some b => { sub with is_pretested := b }
    | none => sub
  let cases := cases.filter fun c => !(c.submission_id == sub.id)
  match transport with
  | .error _ => ((({ sub with status := "IE" } : Submission), cases), false)
  | .ok response =>
    let status :=
      if response.name == "submission-received" && response.submission_id == sub.id
      then "QU" else "IE"
    ((({ sub with status := status } : Submission), cases), true)
/-- Modelled from the spec: the decode priority list of §4.4, "TLE(4) >
MLE(8) > OLE(64) > RTE(2) > IR(16) > WA(1) > ShortCircuit(32)", first set
bit wins, `AC` by default. -/
def decodePriorityTable : List (Nat × String) :=
  [(4, "TLE"), (8, "MLE"), (64, "OLE"), (2, "RTE"), (16, "IR"), (1, "WA"), (32, "SC")]
/-- Modelled from the spec: decoding by scanning the priority table for
the first set flag. -/
def decodeBySpec (status : Nat) : String :=
  ((decodePriorityTable.find? fun e => status &&& e.1 != 0).map fun e => e.2).getD "AC"
/-- The severity ordering asserted by the claim for the grading-end
result: the bitmask decode priority, with Accepted lowest (AC < SC < WA
< IR < RTE < OLE < MLE < TLE ascending). -/
def claimRank (s : String) : Nat :=
  ["AC", "SC", "WA", "IR", "RTE", "OLE", "MLE", "TLE"].indexOf s
/-- Standalone contribution to the summed points: cases with no batch id. -/
def sPoints (cs : List SubmissionTestCase) : ℚ :=
  ((cs.filter fun c => c.batch == none).map fun c => c.points).sum
/-- Standalone contribution to the summed total. -/
def sTotal (cs : List SubmissionTestCase) : ℚ :=
  ((cs.filter fun c => c.batch == none).map fun c => c.total).sum
/-- The batch ids occurring among the stored cases, each once. -/
def batchIds (cs : List SubmissionTestCase) : List Nat :=
  (cs.filterMap fun c => c.batch).dedup
/-- The minimum points observed within batch `b`. -/
def batchMin (cs : List SubmissionTestCase) (b : Nat) : ℚ :=
  (((cs.filter fun c => c.batch == some b).map fun c => c.points).min?).getD 0
/-- The maximum total observed within batch `b`. -/
def batchMax (cs : List SubmissionTestCase) (b : Nat) : ℚ :=
  (((cs.filter fun c => c.batch == some b).map fun c => c.total).max?).getD 0
/-- The summed points as the claim describes them: standalone cases
directly, each batch by its minimum observed points. -/
def groupedPoints (cs : List SubmissionTestCase) : ℚ :=
  sPoints cs + ((batchIds cs).map fun b => batchMin cs b).sum
/-- The summed total as the claim describes it: standalone cases
directly, each batch by its maximum observed total. -/
def groupedTotal (cs : List SubmissionTestCase) : ℚ :=
  sTotal cs + ((batchIds cs).map fun b => batchMax cs b).sum
/-- The stored submission row after a handler call, for stating
post-conditions without destructuring the `Except`. -/
def gradedSub (r : Except String DbOut) (sid : Nat) : Option Submission :=
  match r with
  | .ok out => out.db sid
  | .error _ => none
/-- A public problem worth 10 points with partial credit. -/
def exProblem : Problem := ⟨10, true, true⟩
/-- A submission mid-grading on `exProblem`. -/
def exSub : Submission :=
  ⟨1, "G", none, none, none, none, none, 0, 0, 1, false, false, none, exProblem⟩
/-- A one-submission table holding `exSub` at id 1. -/
def exDb : DB := fun i => if i = 1 then some exSub else none
/-- A session currently grading submission 1, not in a batch, with no
rate-limit state. -/
def exSession : Session := ⟨some 1, false, 0, fun _ => none⟩
/-- A stored test-case row of submission 1 used by witnesses. -/
def row0 : SubmissionTestCase := ⟨1, 1, "AC", 0, 0, 0, 0, none, "", ""⟩
/-- A stored case with status TLE. -/
def rowTLE : SubmissionTestCase := { row0 with status := "TLE" }
/-- A stored case with status IR. -/
def rowIR : SubmissionTestCase := { row0 with casePos := 2, status := "IR" }
/-- A 10-point problem without partial credit. -/
def exProblemNP : Problem := ⟨10, false, true⟩
/-- `exSub` on the all-or-nothing problem. -/
def exSubNP : Submission := { exSub with problem := exProblemNP }
def exDbNP : DB := fun i => if i = 1 then some exSubNP else none
/-- A row scoring 9.5 of 10. -/
def row95 : SubmissionTestCase := { row0 with status := "WA", points := 19/2, total := 10 }
/-- A row scoring 10 of 10. -/
def row10 : SubmissionTestCase := { row0 with points := 10, total := 10 }
/-- Whether a handler's posted events include the per-submission
`test-case` event. -/
def postsTestCase (events : List Event) (sid : Nat) : Bool :=
  events.any fun e => e.channel == Channel.subChan sid && e.etype == "test-case"
/-- The events of a successful handler call. -/
def okEvents (r : Except String DbOut) : List Event :=
  match r with
  | .ok o => o.events
  | .error _ => []
/-- Feed a stream of `test-case` packets for submission `sid` (fixed
payload: the rate limiter never reads it) at the given times, threading
the session, table and rows; record for each packet whether its
`test-case` event was published. -/
def runTestCases (sess : Session) (db : DB) (cases : List SubmissionTestCase)
    (sid : Nat) : List ℚ → List Bool
  | [] => []
  | t :: ts =>
    match on_test_case sess db cases sid 1 0 0 0 0 0 none "" t with
    | .error _ => []
    | .ok (sess2, out) =>
      postsTestCase out.events sid :: runTestCases sess2 out.db out.cases sid ts
/-- The keys of the `batches` association list. -/
def batchKeys (bs : List (Nat × ℚ × ℚ)) : List Nat := bs.map fun e => e.1
/-- `batches[b]` as an optional value. -/
def lookupBatch (bs : List (Nat × ℚ × ℚ)) (b : Nat) : Option (ℚ × ℚ) :=
  (bs.find? fun e => e.1 == b).map fun e => e.2
/-- A batched case scoring 3 of 5 in batch 1. -/
def rowB3 : SubmissionTestCase := { row0 with points := 3, total := 5, batch := some 1 }
/-- A batched case scoring 5 of 5 in batch 1. -/
def rowB5 : SubmissionTestCase :=
  { row0 with casePos := 2, points := 5, total := 5, batch := some 1 }

/-! ## Theorems -/

/-- C4: every test-case packet's status bitmask decodes to exactly one of
the eight result statuses by checking flag bits in the fixed priority
order TLE(4), MLE(8), OLE(64), RTE(2), IR(16), WA(1), SC(32), first set
bit wins, `AC` when none is set; in particular a mask with both TLE(4)
and WA(1) set (such as 5) decodes to TLE, never WA. -/
theorem testcase_status_decode_priority :
    (∀ status : Nat, decodeStatus status = decodeBySpec status) ∧
    decodeStatus 5 = "TLE" := by
  refine ⟨fun status => ?_, rfl⟩
  simp only [decodeStatus, decodeBySpec, decodePriorityTable, List.find?]
  cases status &&& 4 != 0 <;> cases status &&& 8 != 0 <;> cases status &&& 64 != 0 <;>
    cases status &&& 2 != 0 <;> cases status &&& 16 != 0 <;> cases status &&& 1 != 0 <;>
    cases status &&& 32 != 0 <;> rfl
/-- C3: when a judge session's connection closes while a submission is
assigned to it (`_working` set), the teardown path `on_close` forces
that submission's stored status to InternalError `IE`; in particular it
cannot be left in Processing `P` or Grading `G`. -/
theorem close_sets_internal_error (sess : Session) (db : DB) (id : Nat) (sub : Submission)
    (hw : sess.working = some id) (hdb : db id = some sub) :
    ((on_close sess db).toOption.bind fun d => (d id).map fun s => s.status) = some "IE" ∧
    ("IE" : String) ≠ "P" ∧ ("IE" : String) ≠ "G" := by
  refine ⟨?_, by decide, by decide⟩
  simp [on_close, hw, hdb, dbSet, Except.toOption]
theorem close_sets_internal_error_witness :
    ((on_close exSession exDb).toOption.bind fun d => (d 1).map fun s => s.status) = some "IE" :=
  (close_sets_internal_error exSession exDb 1 exSub rfl rfl).1
/-- C9: if the transport request raises, `judge_submission` returns
`false` with the submission's status set to InternalError `IE` instead of
propagating the exception; if the request completes it returns `true`,
with status `QU` exactly when the reply is a `submission-received`
acknowledgement carrying the matching submission id. -/
theorem judge_submission_error_handling (sub : Submission) (cases : List SubmissionTestCase)
    (pl : Option Bool) (transport : Except String Response) :
    (∀ e, transport = .error e →
      (judge_submission sub cases pl transport).2 = false ∧
      (judge_submission sub cases pl transport).1.1.status = "IE") ∧
    (∀ r, transport = .ok r →
      (judge_submission sub cases pl transport).2 = true ∧
      ((judge_submission sub cases pl transport).1.1.status = "QU" ↔
        r.name = "submission-received" ∧ r.submission_id = sub.id)) := by
  constructor
  · rintro e rfl
    cases pl <;> simp [judge_submission]
  · rintro r rfl
    cases pl <;>
      · simp only [judge_submission]
        refine ⟨by trivial, ?_⟩
        rcases h : r.name == "submission-received" && r.submission_id == sub.id <;>
          simp_all [Bool.and_eq_true]
theorem judge_submission_error_handling_witness :
    (judge_submission exSub [] none (.error "connection refused")).2 = false ∧
    (judge_submission exSub [] none (.error "connection refused")).1.1.status = "IE" :=
  (judge_submission_error_handling exSub [] none (.error "connection refused")).1
    "connection refused" rfl
/-- C8: a packet of any kind whose submission id is not tracked is logged
and ignored: the handler returns normally (no raise), leaves the
submission table and the test-case rows untouched, and publishes no
event. -/
theorem unknown_submission_is_ignored (db : DB) (cases : List SubmissionTestCase) (sid : Nat)
    (judge : Option String) (pretested : Bool) (log msg : String) (sess : Session)
    (position status : Nat) (time memory points total : ℚ) (feedback : Option String)
    (output : String) (now : ℚ) (h : db sid = none) :
    on_submission_processing db cases judge sid = .ok ⟨db, cases, []⟩ ∧
    on_grading_begin db cases sid pretested = .ok ⟨db, cases, []⟩ ∧
    on_test_case sess db cases sid position status time memory points total feedback output now
      = .ok (sess, ⟨db, cases, []⟩) ∧
    on_grading_end db cases sid = .ok ⟨db, cases, []⟩ ∧
    on_compile_error db cases sid log = .ok ⟨db, cases, []⟩ ∧
    on_compile_message db cases sid log = .ok ⟨db, cases, []⟩ ∧
    on_internal_error db cases sid msg = .ok ⟨db, cases, []⟩ ∧
    on_submission_terminated db cases sid = .ok ⟨db, cases, []⟩ := by
  refine ⟨?_, ?_, ?_, ?_, ?_, ?_, ?_, ?_⟩ <;>
    simp [on_submission_processing, on_grading_begin, on_test_case, on_grading_end,
      on_compile_error, on_compile_message, on_internal_error, on_submission_terminated, h]
theorem unknown_submission_is_ignored_witness :
    on_grading_end (fun _ => none) [] 7 = .ok ⟨fun _ => none, [], []⟩ :=
  (unknown_submission_is_ignored (fun _ => none) [] 7 none false "" "" exSession
    0 0 0 0 0 0 none "" 0 rfl).2.2.2.1
/-- C6: `grading-begin` for a known submission is an idempotent restart:
whatever the prior state, the stored submission gets status Grading `G`,
`is_pretested` from the packet, `current_testcase` 1 and a cleared batch
flag, and every previously stored test-case row of that submission is
deleted (rows of other submissions are kept). -/
theorem grading_begin_idempotent_restart (db : DB) (cases : List SubmissionTestCase)
    (sid : Nat) (pretested : Bool) (sub : Submission) (h : db sid = some sub) :
    gradedSub (on_grading_begin db cases sid pretested) sid =
      some { sub with
        status := "G", is_pretested := pretested, current_testcase := 1, batch := false } ∧
    ((on_grading_begin db cases sid pretested).toOption.map fun o => o.cases) =
      some (cases.filter fun c => !(c.submission_id == sid)) ∧
    ((on_grading_begin db cases sid pretested).toOption.map fun o =>
        o.cases.filter fun c => c.submission_id == sid) = some [] := by
  refine ⟨?_, ?_, ?_⟩ <;>
    simp [on_grading_begin, h, gradedSub, dbSet, Except.toOption, List.filter_filter]
theorem grading_begin_idempotent_restart_witness :
    ((on_grading_begin exDb [row0, { row0 with submission_id := 2 }] 1 true).toOption.map
        fun o => o.cases.filter fun c => c.submission_id == 1) = some [] :=
  (grading_begin_idempotent_restart exDb [row0, { row0 with submission_id := 2 }] 1 true
    exSub rfl).2.2
/-- C10: `on_test_case` creates and saves the decoded row and overwrites
`current_testcase` to position + 1 before the rate limiter runs: the
persisted state is the same whatever the counter state or clock reads,
and rate limiting can only suppress the published events. -/
theorem testcase_persistence_independent_of_rate_limit
    (sess1 sess2 : Session) (db : DB) (cases : List SubmissionTestCase)
    (sid position status : Nat) (time memory points total : ℚ)
    (feedback : Option String) (output : String) (now1 now2 : ℚ)
    (hib : sess1.in_batch = sess2.in_batch) (hbi : sess1.batch_id = sess2.batch_id) :
    ((on_test_case sess1 db cases sid position status time memory points total feedback
        output now1).toOption.map fun o => (o.2.db, o.2.cases)) =
    ((on_test_case sess2 db cases sid position status time memory points total feedback
        output now2).toOption.map fun o => (o.2.db, o.2.cases)) ∧
    (∀ sub, db sid = some sub →
      ((on_test_case sess1 db cases sid position status time memory points total feedback
          output now1).toOption.map fun o => o.2.cases) =
        some (cases ++ [mkRow sess1 sid position status time memory points total feedback
          output]) ∧
      ((on_test_case sess1 db cases sid position status time memory points total feedback
          output now1).toOption.bind fun o => o.2.db sid) =
        some { sub with current_testcase := position + 1 }) := by
  refine ⟨?_, fun sub hsub => ?_⟩
  · cases h : db sid <;>
      simp [on_test_case, h, mkRow, hib, hbi, Except.toOption]
  · refine ⟨?_, ?_⟩ <;> simp [on_test_case, hsub, dbSet, Except.toOption]
theorem testcase_persistence_independent_of_rate_limit_witness :
    ((on_test_case exSession exDb [] 1 1 0 0 0 0 0 none "" 0).toOption.bind
        fun o => o.2.db 1) = some { exSub with current_testcase := 2 } :=
  ((testcase_persistence_independent_of_rate_limit exSession
      ⟨some 1, false, 0, fun _ => some (99, 0)⟩ exDb [] 1 1 0 0 0 0 0 none "" 0 5
      rfl rfl).2 exSub rfl).2
/-- `finalSubPoints` restated the way the specification words the rule:
compute round(points / total x problem points, 1) when total is positive
and 0 otherwise, then force non-partial mismatches to 0. -/
theorem finalSubPoints_spec (pts tot P : ℚ) (partialCredit : Bool) :
    finalSubPoints pts tot P partialCredit =
      (let computed := if 0 < tot then pyRound1 (pts / tot * P) else 0
       if partialCredit then computed else if computed = P then computed else 0) := by
  have h0 : pyRound1 0 = 0 := by with_unfolding_all decide
  unfold finalSubPoints
  rcases partialCredit <;> rcases ht : decide (0 < tot) <;> simp_all <;> split_ifs <;> simp_all
/-- C2: at grading-end the final submission points are
round(points / total x problem.points, 1) when the summed total is
positive and 0 otherwise, and for a problem without partial credit any
computed value different from the problem's points is forced to 0. -/
theorem grading_end_final_points (db : DB) (cases : List SubmissionTestCase) (sid : Nat)
    (sub : Submission) (h : db sid = some sub) :
    (gradedSub (on_grading_end db cases sid) sid).bind (fun s => s.points) =
      some (
        let pts := aggPoints (cases.filter fun c => c.submission_id == sid)
        let tot := aggTotal (cases.filter fun c => c.submission_id == sid)
        let computed := if 0 < tot then pyRound1 (pts / tot * sub.problem.points) else 0
        if sub.problem.partialCredit then computed
        else if computed = sub.problem.points then computed else 0) := by
  simp only [on_grading_end, h, gradedSub, dbSet, if_true, Option.some_bind]
  rw [finalSubPoints_spec]
  simp only [aggPoints, aggTotal]
/-- The status component of one aggregation step is the maximum of the
running status index and the case's status index. -/
theorem stepCase_status (acc : GradeAcc) (c : SubmissionTestCase) :
    (stepCase acc c).status = max acc.status (status_codes.indexOf c.status) := by
  unfold stepCase
  rcases c.batch with _ | b <;> dsimp only <;> [skip; split] <;> split <;>
    dsimp only at * <;> omega
theorem foldl_stepCase_status (cs : List SubmissionTestCase) (acc : GradeAcc) :
    (cs.foldl stepCase acc).status =
      (cs.map fun c => status_codes.indexOf c.status).foldl max acc.status := by
  induction cs generalizing acc with
  | nil => rfl
  | cons c cs ih => simp [List.foldl_cons, ih, stepCase_status]
theorem gradeAgg_status (cs : List SubmissionTestCase) :
    (gradeAgg cs).status = (cs.map fun c => status_codes.indexOf c.status).foldl max 0 :=
  foldl_stepCase_status cs ⟨0, 0, 0, 0, 0, []⟩
theorem foldl_max_le (l : List Nat) (a : Nat) : a ≤ l.foldl max a := by
  induction l generalizing a with
  | nil => simp
  | cons x l ih => exact le_trans (Nat.le_max_left a x) (ih _)
theorem mem_le_foldl_max (l : List Nat) (a : Nat) : ∀ x ∈ l, x ≤ l.foldl max a := by
  induction l generalizing a with
  | nil => simp
  | cons y l ih =>
    intro x hx
    rcases List.mem_cons.1 hx with rfl | hx
    · exact le_trans (Nat.le_max_right a x) (foldl_max_le _ _)
    · exact ih _ x hx
theorem foldl_max_attained (l : List Nat) (a : Nat) :
    l.foldl max a = a ∨ l.foldl max a ∈ l := by
  induction l generalizing a with
  | nil => simp
  | cons x l ih =>
    simp only [List.foldl_cons]
    rcases ih (max a x) with h | h
    · rcases max_choice a x with h2 | h2
      · exact Or.inl (by rw [h, h2])
      · exact Or.inr (by rw [h, h2]; exact List.mem_cons_self x l)
    · exact Or.inr (List.mem_cons_of_mem _ h)
/-- C5 counterexample: the grading-end result is NOT ranked by the
bitmask-decode priority order the claim names.  With stored cases TLE
and IR, the claim's ordering (TLE highest) would make TLE the worst
case, but the code reports IR: `status_codes` severity (SC < AC < WA <
MLE < TLE < IR < RTE < OLE) differs from the decode priority. -/
theorem grading_end_worst_status_counterexample :
    (gradedSub (on_grading_end exDb [rowTLE, rowIR] 1) 1).bind (fun s => s.result) =
      some "IR" ∧
    ([rowTLE, rowIR].all fun c => decide (claimRank c.status ≤ claimRank "TLE")) = true ∧
    claimRank "IR" < claimRank "TLE" ∧ ("IR" : String) ≠ "TLE" := by
  refine ⟨?_, by decide, by decide, by decide⟩
  with_unfolding_all decide
/-- C5 (amended): at grading-end, for a non-empty set of stored test
cases the submission's result token is the worst case status ranked by
the `status_codes` index order SC < AC < WA < MLE < TLE < IR < RTE < OLE
(the §6 "ascending severity" token order), not by the bitmask-decode
priority order. -/
theorem grading_end_worst_status (db : DB) (cases : List SubmissionTestCase) (sid : Nat)
    (sub : Submission) (h : db sid = some sub)
    (hne : (cases.filter fun c => c.submission_id == sid) ≠ [])
    (hv : ∀ c ∈ cases.filter fun c => c.submission_id == sid, c.status ∈ status_codes) :
    ∃ c ∈ cases.filter fun c => c.submission_id == sid,
      (gradedSub (on_grading_end db cases sid) sid).bind (fun s => s.result) =
        some c.status ∧
      ∀ c2 ∈ cases.filter fun c => c.submission_id == sid,
        status_codes.indexOf c2.status ≤ status_codes.indexOf c.status := by
  set my := cases.filter fun c => c.submission_id == sid with hmy
  have hres : (gradedSub (on_grading_end db cases sid) sid).bind (fun s => s.result) =
      some (status_codes.getD (gradeAgg my).status "") := by
    simp [on_grading_end, h, gradedSub, dbSet, ← hmy]
  have hst := gradeAgg_status my
  obtain ⟨c, hc, hcs⟩ : ∃ c ∈ my, status_codes.indexOf c.status = (gradeAgg my).status := by
    rcases foldl_max_attained (my.map fun c => status_codes.indexOf c.status) 0 with h0 | hmem
    · obtain ⟨c0, hc0⟩ := List.exists_mem_of_ne_nil my hne
      refine ⟨c0, hc0, ?_⟩
      have hub := mem_le_foldl_max (my.map fun c => status_codes.indexOf c.status) 0
        (status_codes.indexOf c0.status) (List.mem_map_of_mem _ hc0)
      omega
    · rw [List.mem_map] at hmem
      obtain ⟨c, hc, hcs⟩ := hmem
      exact ⟨c, hc, by omega⟩
  refine ⟨c, hc, ?_, ?_⟩
  · rw [hres, ← hcs]
    have hmem := hv c hc
    have hlt : status_codes.indexOf c.status < status_codes.length :=
      List.indexOf_lt_length.2 hmem
    rw [List.getD_eq_getElem?_getD, List.getElem?_eq_getElem hlt,
      List.getElem_indexOf hlt]
    rfl
  · intro c2 hc2
    have hub := mem_le_foldl_max (my.map fun c => status_codes.indexOf c.status) 0
      (status_codes.indexOf c2.status) (List.mem_map_of_mem _ hc2)
    omega
theorem grading_end_worst_status_witness :
    ∃ c ∈ ([rowTLE, rowIR].filter fun c => c.submission_id == 1),
      (gradedSub (on_grading_end exDb [rowTLE, rowIR] 1) 1).bind (fun s => s.result) =
        some c.status ∧
      ∀ c2 ∈ ([rowTLE, rowIR].filter fun c => c.submission_id == 1),
        status_codes.indexOf c2.status ≤ status_codes.indexOf c.status :=
  grading_end_worst_status exDb [rowTLE, rowIR] 1 exSub rfl (by decide) (by decide)
theorem grading_end_final_points_witness :
    (gradedSub (on_grading_end exDbNP [row95] 1) 1).bind (fun s => s.points) = some 0 ∧
    (gradedSub (on_grading_end exDbNP [row10] 1) 1).bind (fun s => s.points) = some 10 :=
  ⟨(grading_end_final_points exDbNP [row95] 1 exSubNP rfl).trans
      (by with_unfolding_all decide),
   (grading_end_final_points exDbNP [row10] 1 exSubNP rfl).trans
      (by with_unfolding_all decide)⟩
theorem runTestCases_cons (sess : Session) (db : DB) (cases : List SubmissionTestCase)
    (sid : Nat) (sub : Submission) (t : ℚ) (ts : List ℚ) (h : db sid = some sub) :
    runTestCases sess db cases sid (t :: ts) =
      (rateLimit sess.update_counter sid t).2 ::
        runTestCases { sess with update_counter := (rateLimit sess.update_counter sid t).1 }
          (dbSet db sid { sub with current_testcase := 2 })
          (cases ++ [mkRow sess sid 1 0 0 0 0 0 none ""]) sid ts := by
  simp only [runTestCases, on_test_case, h]
  rcases hrl : rateLimit sess.update_counter sid t with ⟨ctr2, post⟩
  rcases post <;> simp [postsTestCase, hrl]
theorem rateLimit_fresh (ctr : Counter) (sid : Nat) (now : ℚ) (hc : ctr sid = none) :
    rateLimit ctr sid now = (counterSet ctr sid 1 now, true) := by
  simp [rateLimit, hc]
theorem rateLimit_within (ctr : Counter) (sid : Nat) (cnt : Nat) (reset now : ℚ)
    (hc : ctr sid = some (cnt, reset)) (hwin : ¬ UPDATE_RATE_TIME < now - reset) :
    rateLimit ctr sid now =
      (counterSet ctr sid (cnt + 1) reset, decide (cnt + 1 ≤ UPDATE_RATE_LIMIT)) := by
  simp only [rateLimit, hc, if_neg hwin]
  rcases Nat.lt_or_ge UPDATE_RATE_LIMIT (cnt + 1) with hl | hl
  · rw [if_pos hl, decide_eq_false (by omega)]
  · rw [if_neg (by omega), decide_eq_true (by omega)]
theorem rateLimit_expired (ctr : Counter) (sid : Nat) (cnt : Nat) (reset now : ℚ)
    (hc : ctr sid = some (cnt, reset)) (hwin : UPDATE_RATE_TIME < now - reset) :
    rateLimit ctr sid now = (counterSet ctr sid 1 now, true) := by
  simp [rateLimit, hc, hwin]
/-- C7: from an empty rate-limit state, 7 `test-case` packets for one
submission inside a single half-second window publish exactly the first
5 (packets 6 and 7 are dropped, not queued); an 8th packet after the
window expired is published again.  Other event kinds bypass the
limiter: `grading-end`, for example, always posts its per-submission
event whatever the session's counter state (it never reads one). -/
theorem testcase_rate_limiting (sess : Session) (db : DB) (cases : List SubmissionTestCase)
    (sid : Nat) (sub : Submission) (t1 t2 t3 t4 t5 t6 t7 t8 : ℚ)
    (hdb : db sid = some sub) (hctr : sess.update_counter sid = none)
    (h2 : t2 - t1 ≤ 1/2) (h3 : t3 - t1 ≤ 1/2) (h4 : t4 - t1 ≤ 1/2) (h5 : t5 - t1 ≤ 1/2)
    (h6 : t6 - t1 ≤ 1/2) (h7 : t7 - t1 ≤ 1/2) (h8 : 1/2 < t8 - t1) :
    runTestCases sess db cases sid [t1, t2, t3, t4, t5, t6, t7, t8] =
      [true, true, true, true, true, false, false, true] ∧
    (∀ (db2 : DB) (cases2 : List SubmissionTestCase) (sid2 : Nat) (sub2 : Submission),
      db2 sid2 = some sub2 →
        Event.mk (.subChan sid2) "grading-end" ∈ okEvents (on_grading_end db2 cases2 sid2)) := by
  constructor
  · have hT : UPDATE_RATE_TIME = 1/2 := rfl
    rw [runTestCases_cons sess db cases sid sub t1 _ hdb, rateLimit_fresh _ _ _ hctr]
    rw [runTestCases_cons _ _ _ sid { sub with current_testcase := 2 } t2 _ (by simp [dbSet]),
      rateLimit_within _ _ 1 t1 t2 (by simp [counterSet]) (by rw [hT]; exact not_lt.2 h2)]
    rw [runTestCases_cons _ _ _ sid { sub with current_testcase := 2 } t3 _ (by simp [dbSet]),
      rateLimit_within _ _ 2 t1 t3 (by simp [counterSet]) (by rw [hT]; exact not_lt.2 h3)]
    rw [runTestCases_cons _ _ _ sid { sub with current_testcase := 2 } t4 _ (by simp [dbSet]),
      rateLimit_within _ _ 3 t1 t4 (by simp [counterSet]) (by rw [hT]; exact not_lt.2 h4)]
    rw [runTestCases_cons _ _ _ sid { sub with current_testcase := 2 } t5 _ (by simp [dbSet]),
      rateLimit_within _ _ 4 t1 t5 (by simp [counterSet]) (by rw [hT]; exact not_lt.2 h5)]
    rw [runTestCases_cons _ _ _ sid { sub with current_testcase := 2 } t6 _ (by simp [dbSet]),
      rateLimit_within _ _ 5 t1 t6 (by simp [counterSet]) (by rw [hT]; exact not_lt.2 h6)]
    rw [runTestCases_cons _ _ _ sid { sub with current_testcase := 2 } t7 _ (by simp [dbSet]),
      rateLimit_within _ _ 6 t1 t7 (by simp [counterSet]) (by rw [hT]; exact not_lt.2 h7)]
    rw [runTestCases_cons _ _ _ sid { sub with current_testcase := 2 } t8 _ (by simp [dbSet]),
      rateLimit_expired _ _ 7 t1 t8 (by simp [counterSet]) (by rw [hT]; exact h8)]
    rfl
  · intro db2 cases2 sid2 sub2 h2'
    simp [on_grading_end, h2', okEvents]
theorem testcase_rate_limiting_witness :
    runTestCases exSession exDb [] 1 [0, 1/10, 1/10, 2/10, 2/10, 3/10, 3/10, 6/10] =
      [true, true, true, true, true, false, false, true] :=
  (testcase_rate_limiting exSession exDb [] 1 exSub 0 (1/10) (1/10) (2/10) (2/10) (3/10)
    (3/10) (6/10) rfl rfl (by with_unfolding_all decide) (by with_unfolding_all decide)
    (by with_unfolding_all decide) (by with_unfolding_all decide)
    (by with_unfolding_all decide) (by with_unfolding_all decide)
    (by with_unfolding_all decide)).1
theorem stepCase_standalone (acc : GradeAcc) (c : SubmissionTestCase) (h : c.batch = none) :
    (stepCase acc c).points = acc.points + c.points ∧
    (stepCase acc c).total = acc.total + c.total ∧
    (stepCase acc c).batches = acc.batches := by
  unfold stepCase
  rw [h]
  dsimp only
  split <;> exact ⟨rfl, rfl, rfl⟩
theorem stepCase_batched (acc : GradeAcc) (c : SubmissionTestCase) (b : Nat)
    (h : c.batch = some b) (hb : b ≠ 0) :
    (stepCase acc c).points = acc.points ∧
    (stepCase acc c).total = acc.total ∧
    (stepCase acc c).batches = updateBatches acc.batches b c.points c.total := by
  unfold stepCase
  rw [h]
  dsimp only
  rw [if_neg hb]
  dsimp only
  split <;> exact ⟨rfl, rfl, rfl⟩
theorem gradeAgg_concat (cs : List SubmissionTestCase) (c : SubmissionTestCase) :
    gradeAgg (cs ++ [c]) = stepCase (gradeAgg cs) c := by
  unfold gradeAgg
  rw [List.foldl_append]
  rfl
theorem min?_concat (l : List ℚ) (x : ℚ) :
    (l ++ [x]).min? = some ((l.min?).elim x fun m => min m x) := by
  cases l with
  | nil => rfl
  | cons a l =>
    show (a :: (l ++ [x])).min? = _
    rw [List.min?_cons', List.min?_cons', List.foldl_append]
    rfl
theorem max?_concat (l : List ℚ) (x : ℚ) :
    (l ++ [x]).max? = some ((l.max?).elim x fun m => max m x) := by
  cases l with
  | nil => rfl
  | cons a l =>
    show (a :: (l ++ [x])).max? = _
    rw [List.max?_cons', List.max?_cons', List.foldl_append]
    rfl
theorem find?_key_isSome (bs : List (Nat × ℚ × ℚ)) (b : Nat) :
    (bs.find? fun e => e.1 == b).isSome = true ↔ b ∈ batchKeys bs := by
  simp [List.find?_isSome, batchKeys, List.mem_map, beq_iff_eq]
theorem lookupBatch_eq_none (bs : List (Nat × ℚ × ℚ)) (b : Nat) :
    lookupBatch bs b = none ↔ b ∉ batchKeys bs := by
  rw [← find?_key_isSome]
  unfold lookupBatch
  cases bs.find? fun e => e.1 == b <;> simp
theorem updateBatches_keys (bs : List (Nat × ℚ × ℚ)) (b : Nat) (p t : ℚ) :
    batchKeys (updateBatches bs b p t) =
      if b ∈ batchKeys bs then batchKeys bs else batchKeys bs ++ [b] := by
  unfold updateBatches
  rcases hf : (bs.find? fun e => e.1 == b).isSome with _ | _
  · rw [if_neg (by simp [hf]), if_neg (by rw [← find?_key_isSome, hf]; simp)]
    simp [batchKeys]
  · rw [if_pos (by simp [hf]), if_pos ((find?_key_isSome bs b).1 hf)]
    unfold batchKeys
    rw [List.map_map]
    apply List.map_congr_left
    intro e he
    by_cases h : e.1 = b <;> simp [h]
theorem lookupBatch_update_self (bs : List (Nat × ℚ × ℚ)) (b : Nat) (p t : ℚ) :
    lookupBatch (updateBatches bs b p t) b =
      some ((lookupBatch bs b).elim (p, t) fun v => (min v.1 p, max v.2 t)) := by
  unfold updateBatches
  rcases hf : bs.find? fun e => e.1 == b with _ | e0
  · rw [if_neg (by simp [hf])]
    unfold lookupBatch
    rw [List.find?_append, hf]
    simp
  · rw [if_pos (by simp [hf])]
    have hkey : ((fun e => e.1 == b) ∘ fun e : Nat × ℚ × ℚ =>
        if e.1 == b then (e.1, min e.2.1 p, max e.2.2 t) else e) = fun e => e.1 == b := by
      funext e
      by_cases h : e.1 = b <;> simp [h]
    have hp := List.find?_some hf
    unfold lookupBatch
    rw [List.find?_map, hkey, hf]
    rw [beq_iff_eq] at hp
    simp [hp]
theorem lookupBatch_update_other (bs : List (Nat × ℚ × ℚ)) (b b' : Nat) (p t : ℚ)
    (hne : b' ≠ b) :
    lookupBatch (updateBatches bs b p t) b' = lookupBatch bs b' := by
  unfold updateBatches
  split
  · have hkey : ((fun e => e.1 == b') ∘ fun e : Nat × ℚ × ℚ =>
        if e.1 == b then (e.1, min e.2.1 p, max e.2.2 t) else e) = fun e => e.1 == b' := by
      funext e
      by_cases h : e.1 = b <;> simp [h]
    unfold lookupBatch
    rw [List.find?_map, hkey]
    rcases hf : bs.find? fun e => e.1 == b' with _ | e0 <;> rw [hf]
    · rfl
    · have hp := List.find?_some hf
      rw [beq_iff_eq] at hp
      simp [hp, hne]
  · unfold lookupBatch
    rw [List.find?_append]
    rcases hf : bs.find? fun e => e.1 == b' with _ | e0 <;> simp [Ne.symm hne]
theorem lookupBatch_self_of_mem (bs : List (Nat × ℚ × ℚ)) (e : Nat × ℚ × ℚ)
    (hnd : (batchKeys bs).Nodup) (he : e ∈ bs) : lookupBatch bs e.1 = some e.2 := by
  induction bs with
  | nil => simp at he
  | cons e0 bs ih =>
    simp only [batchKeys, List.map_cons, List.nodup_cons] at hnd
    rcases List.mem_cons.1 he with rfl | he2
    · unfold lookupBatch
      rw [List.find?_cons]
      simp
    · have hmem : e.1 ∈ List.map (fun x => x.1) bs := List.mem_map_of_mem (fun x => x.1) he2
      have hne : (e0.1 == e.1) = false := by
        rw [beq_eq_false_iff_ne]
        intro hc
        rw [← hc] at hmem
        exact hnd.1 hmem
      unfold lookupBatch
      rw [List.find?_cons, hne]
      exact ih hnd.2 he2
theorem sPoints_concat_none (cs : List SubmissionTestCase) (c : SubmissionTestCase)
    (h : c.batch = none) : sPoints (cs ++ [c]) = sPoints cs + c.points := by
  simp [sPoints, List.filter_append, h]
theorem sTotal_concat_none (cs : List SubmissionTestCase) (c : SubmissionTestCase)
    (h : c.batch = none) : sTotal (cs ++ [c]) = sTotal cs + c.total := by
  simp [sTotal, List.filter_append, h]
theorem sPoints_concat_some (cs : List SubmissionTestCase) (c : SubmissionTestCase) (b : Nat)
    (h : c.batch = some b) : sPoints (cs ++ [c]) = sPoints cs := by
  simp [sPoints, List.filter_append, h]
theorem sTotal_concat_some (cs : List SubmissionTestCase) (c : SubmissionTestCase) (b : Nat)
    (h : c.batch = some b) : sTotal (cs ++ [c]) = sTotal cs := by
  simp [sTotal, List.filter_append, h]
theorem filter_batch_concat_other (cs : List SubmissionTestCase) (c : SubmissionTestCase)
    (b' : Nat) (h : (c.batch == some b') = false) :
    ((cs ++ [c]).filter fun x => x.batch == some b') =
      cs.filter fun x => x.batch == some b' := by
  simp [List.filter_append, h]
theorem batchMin_concat_other (cs : List SubmissionTestCase) (c : SubmissionTestCase)
    (b' : Nat) (h : (c.batch == some b') = false) :
    batchMin (cs ++ [c]) b' = batchMin cs b' := by
  unfold batchMin
  rw [filter_batch_concat_other cs c b' h]
theorem batchMax_concat_other (cs : List SubmissionTestCase) (c : SubmissionTestCase)
    (b' : Nat) (h : (c.batch == some b') = false) :
    batchMax (cs ++ [c]) b' = batchMax cs b' := by
  unfold batchMax
  rw [filter_batch_concat_other cs c b' h]
theorem batchMin_concat_self (cs : List SubmissionTestCase) (c : SubmissionTestCase)
    (b : Nat) (h : c.batch = some b) :
    batchMin (cs ++ [c]) b =
      ((((cs.filter fun x => x.batch == some b).map fun x => x.points).min?).elim c.points
        fun m => min m c.points) := by
  unfold batchMin
  rw [List.filter_append]
  have hc : List.filter (fun x => x.batch == some b) [c] = [c] := by simp [h]
  rw [hc, List.map_append]
  simp only [List.map_cons, List.map_nil]
  rw [min?_concat]
  simp
theorem batchMax_concat_self (cs : List SubmissionTestCase) (c : SubmissionTestCase)
    (b : Nat) (h : c.batch = some b) :
    batchMax (cs ++ [c]) b =
      ((((cs.filter fun x => x.batch == some b).map fun x => x.total).max?).elim c.total
        fun m => max m c.total) := by
  unfold batchMax
  rw [List.filter_append]
  have hc : List.filter (fun x => x.batch == some b) [c] = [c] := by simp [h]
  rw [hc, List.map_append]
  simp only [List.map_cons, List.map_nil]
  rw [max?_concat]
  simp
theorem mem_filterMap_batch (cs : List SubmissionTestCase) (b : Nat) :
    b ∈ (cs.filterMap fun c => c.batch) ↔
      (cs.filter fun c => c.batch == some b) ≠ [] := by
  rw [List.mem_filterMap, Ne, List.filter_eq_nil_iff]
  push_neg
  simp [beq_iff_eq]
theorem gradeAgg_invariant (cs : List SubmissionTestCase)
    (hb : ∀ c ∈ cs, c.batch ≠ some 0) :
    (gradeAgg cs).points = sPoints cs ∧
    (gradeAgg cs).total = sTotal cs ∧
    (batchKeys (gradeAgg cs).batches).Nodup ∧
    (∀ b, b ∈ batchKeys (gradeAgg cs).batches ↔ b ∈ cs.filterMap fun c => c.batch) ∧
    (∀ e ∈ (gradeAgg cs).batches, e.2.1 = batchMin cs e.1 ∧ e.2.2 = batchMax cs e.1) := by
  induction cs using List.reverseRecOn with
  | nil =>
    refine ⟨rfl, rfl, ?_, ?_, ?_⟩ <;> simp [gradeAgg, sPoints, sTotal, batchKeys]
  | append_singleton cs c ih =>
    have hb2 : ∀ x ∈ cs, x.batch ≠ some 0 := fun x hx => hb x (List.mem_append_left _ hx)
    have hcz : c.batch ≠ some 0 := hb c (List.mem_append_right _ (List.mem_cons_self _ _))
    obtain ⟨ihp, iht, ihnd, ihmem, ihval⟩ := ih hb2
    rw [gradeAgg_concat]
    rcases hcb : c.batch with _ | b
    · obtain ⟨hp, ht, hbs⟩ := stepCase_standalone (gradeAgg cs) c hcb
      rw [hp, ht, hbs]
      refine ⟨?_, ?_, ihnd, ?_, ?_⟩
      · rw [ihp, sPoints_concat_none cs c hcb]
      · rw [iht, sTotal_concat_none cs c hcb]
      · intro b
        rw [List.filterMap_append]
        simp [hcb, ihmem b]
      · intro e he
        obtain ⟨h1, h2⟩ := ihval e he
        constructor
        · rw [batchMin_concat_other cs c e.1 (by simp [hcb])]
          exact h1
        · rw [batchMax_concat_other cs c e.1 (by simp [hcb])]
          exact h2
    · have hb0 : b ≠ 0 := by
        intro h0
        exact hcz (by rw [hcb, h0])
      obtain ⟨hp, ht, hbs⟩ := stepCase_batched (gradeAgg cs) c b hcb hb0
      rw [hp, ht, hbs]
      have hnd2 : (batchKeys (updateBatches (gradeAgg cs).batches b c.points
          c.total)).Nodup := by
        rw [updateBatches_keys]
        split
        · exact ihnd
        · rename_i hnm
          simp [List.nodup_append, ihnd, hnm]
      have hmem2 : ∀ b', b' ∈ batchKeys (updateBatches (gradeAgg cs).batches b c.points
          c.total) ↔ b' ∈ (cs ++ [c]).filterMap fun x => x.batch := by
        intro b'
        rw [updateBatches_keys, List.filterMap_append]
        have hfc : ([c].filterMap fun x => x.batch) = [b] := by simp [hcb]
        rw [hfc]
        by_cases hm : b ∈ batchKeys (gradeAgg cs).batches
        · rw [if_pos hm]
          rw [ihmem b']
          simp only [List.mem_append, List.mem_singleton]
          constructor
          · exact fun h => Or.inl h
          · rintro (h | rfl)
            · exact h
            · exact (ihmem b').1 hm
        · rw [if_neg hm]
          simp [List.mem_append, ihmem b']
      refine ⟨?_, ?_, hnd2, hmem2, ?_⟩
      · rw [ihp, sPoints_concat_some cs c b hcb]
      · rw [iht, sTotal_concat_some cs c b hcb]
      · intro e he
        have hlook := lookupBatch_self_of_mem _ e hnd2 he
        by_cases heb : e.1 = b
        · rw [heb] at hlook ⊢
          rw [lookupBatch_update_self] at hlook
          rcases hlb : lookupBatch (gradeAgg cs).batches b with _ | v
          · rw [hlb] at hlook
            simp only [Option.elim, Option.some.injEq] at hlook
            have hempty : (cs.filter fun x => x.batch == some b) = [] := by
              by_contra hne2
              have hmemb : b ∈ batchKeys (gradeAgg cs).batches :=
                (ihmem b).2 ((mem_filterMap_batch cs b).2 hne2)
              exact (lookupBatch_eq_none (gradeAgg cs).batches b).1 hlb hmemb
            constructor
            · rw [batchMin_concat_self cs c b hcb, hempty, ← hlook]
              simp
            · rw [batchMax_concat_self cs c b hcb, hempty, ← hlook]
              simp
          · rw [hlb] at hlook
            simp only [Option.elim, Option.some.injEq] at hlook
            obtain ⟨e0, hfe0⟩ : ∃ e0, (gradeAgg cs).batches.find? (fun x => x.1 == b)
                = some e0 := by
              unfold lookupBatch at hlb
              rcases hf : (gradeAgg cs).batches.find? fun x => x.1 == b with _ | e0
              · rw [hf] at hlb
                simp at hlb
              · exact ⟨e0, hf⟩
            have he0mem := List.mem_of_find?_eq_some hfe0
            have he0key : e0.1 = b := by
              have := List.find?_some hfe0
              rwa [beq_iff_eq] at this
            have he0val : e0.2 = v := by
              unfold lookupBatch at hlb
              rw [hfe0] at hlb
              simpa using hlb
            obtain ⟨h1, h2⟩ := ihval e0 he0mem
            rw [he0val, he0key] at h1 h2
            have hnonempty : (cs.filter fun x => x.batch == some b) ≠ [] := by
              rw [← mem_filterMap_batch cs b]
              refine (ihmem b).1 ?_
              rw [← find?_key_isSome]
              rw [hfe0]
              rfl
            rcases hmq : ((cs.filter fun x => x.batch == some b).map
                fun x => x.points).min? with _ | m
            · rw [List.min?_eq_none_iff] at hmq
              rw [List.map_eq_nil_iff] at hmq
              exact absurd hmq hnonempty
            · rcases hxq : ((cs.filter fun x => x.batch == some b).map
                  fun x => x.total).max? with _ | m2
              · rw [List.max?_eq_none_iff] at hxq
                rw [List.map_eq_nil_iff] at hxq
                exact absurd hxq hnonempty
              · have hminv : batchMin cs b = m := by
                  unfold batchMin
                  rw [hmq]
                  rfl
                have hmaxv : batchMax cs b = m2 := by
                  unfold batchMax
                  rw [hxq]
                  rfl
                constructor
                · rw [batchMin_concat_self cs c b hcb, hmq, ← hlook]
                  simp only [Option.elim]
                  rw [h1, hminv]
                · rw [batchMax_concat_self cs c b hcb, hxq, ← hlook]
                  simp only [Option.elim]
                  rw [h2, hmaxv]
        · rw [lookupBatch_update_other (gradeAgg cs).batches b e.1 c.points c.total heb]
            at hlook
          obtain ⟨e0, hfe0⟩ : ∃ e0, (gradeAgg cs).batches.find? (fun x => x.1 == e.1)
              = some e0 := by
            unfold lookupBatch at hlook
            rcases hf : (gradeAgg cs).batches.find? fun x => x.1 == e.1 with _ | e0
            · rw [hf] at hlook
              simp at hlook
            · exact ⟨e0, hf⟩
          have he0mem := List.mem_of_find?_eq_some hfe0
          have he0key : e0.1 = e.1 := by
            have := List.find?_some hfe0
            rwa [beq_iff_eq] at this
          have he0val : e0.2 = e.2 := by
            unfold lookupBatch at hlook
            rw [hfe0] at hlook
            simpa using hlook
          obtain ⟨h1, h2⟩ := ihval e0 he0mem
          rw [he0val, he0key] at h1 h2
          have hne2 : (c.batch == some e.1) = false := by
            rw [hcb]
            simp only [beq_eq_false_iff_ne, Ne, Option.some.injEq]
            exact fun h => heb h.symm
          constructor
          · rw [batchMin_concat_other cs c e.1 hne2]
            exact h1
          · rw [batchMax_concat_other cs c e.1 hne2]
            exact h2
theorem gradeAgg_grouped (cs : List SubmissionTestCase)
    (hb : ∀ c ∈ cs, c.batch ≠ some 0) :
    (gradeAgg cs).points + ((gradeAgg cs).batches.map fun e => e.2.1).sum
      = groupedPoints cs ∧
    (gradeAgg cs).total + ((gradeAgg cs).batches.map fun e => e.2.2).sum
      = groupedTotal cs := by
  obtain ⟨hp, ht, hnd, hmem, hval⟩ := gradeAgg_invariant cs hb
  have hperm : (batchKeys (gradeAgg cs).batches).Perm (batchIds cs) := by
    refine List.perm_of_nodup_nodup_toFinset_eq hnd (List.nodup_dedup _) ?_
    ext b
    simp only [List.mem_toFinset, hmem b, batchIds, List.mem_dedup]
  constructor
  · have h1 : (gradeAgg cs).batches.map (fun e => e.2.1) =
        (batchKeys (gradeAgg cs).batches).map fun b => batchMin cs b := by
      unfold batchKeys
      rw [List.map_map]
      refine List.map_congr_left fun e he => ?_
      simpa using (hval e he).1
    rw [hp, h1, (hperm.map fun b => batchMin cs b).sum_eq]
    rfl
  · have h2 : (gradeAgg cs).batches.map (fun e => e.2.2) =
        (batchKeys (gradeAgg cs).batches).map fun b => batchMax cs b := by
      unfold batchKeys
      rw [List.map_map]
      refine List.map_congr_left fun e he => ?_
      simpa using (hval e he).2
    rw [ht, h2, (hperm.map fun b => batchMax cs b).sum_eq]
    rfl
theorem min?_perm {l l' : List ℚ} (h : l.Perm l') : l.min? = l'.min? := by
  induction h with
  | nil => rfl
  | cons x p ih => rw [List.min?_cons, List.min?_cons, ih]
  | swap x y l => cases h : l.min? <;> simp [List.min?_cons, h, min_comm, min_left_comm]
  | trans p q ih ih2 => rw [ih, ih2]
theorem max?_perm {l l' : List ℚ} (h : l.Perm l') : l.max? = l'.max? := by
  induction h with
  | nil => rfl
  | cons x p ih => rw [List.max?_cons, List.max?_cons, ih]
  | swap x y l => cases h : l.max? <;> simp [List.max?_cons, h, max_comm, max_left_comm]
  | trans p q ih ih2 => rw [ih, ih2]
theorem grouped_perm {cs cs' : List SubmissionTestCase} (h : cs.Perm cs') :
    groupedPoints cs = groupedPoints cs' ∧ groupedTotal cs = groupedTotal cs' := by
  have hsp : sPoints cs = sPoints cs' := by
    unfold sPoints
    exact ((h.filter fun c => c.batch == none).map fun c => c.points).sum_eq
  have hst : sTotal cs = sTotal cs' := by
    unfold sTotal
    exact ((h.filter fun c => c.batch == none).map fun c => c.total).sum_eq
  have hids : (batchIds cs).Perm (batchIds cs') := by
    unfold batchIds
    exact (h.filterMap fun c => c.batch).dedup
  have hbm : ∀ b, batchMin cs b = batchMin cs' b := by
    intro b
    unfold batchMin
    rw [min?_perm ((h.filter fun c => c.batch == some b).map fun c => c.points)]
  have hbx : ∀ b, batchMax cs b = batchMax cs' b := by
    intro b
    unfold batchMax
    rw [max?_perm ((h.filter fun c => c.batch == some b).map fun c => c.total)]
  constructor
  · unfold groupedPoints
    rw [hsp, List.map_congr_left fun b _ => hbm b]
    exact congrArg (sPoints cs' + ·) (hids.map fun b => batchMin cs' b).sum_eq
  · unfold groupedTotal
    rw [hst, List.map_congr_left fun b _ => hbx b]
    exact congrArg (sTotal cs' + ·) (hids.map fun b => batchMax cs' b).sum_eq
/-- C1: at grading-end, standalone stored cases (batch id null) add
their points and total to the sums directly, while each batch of batched
cases contributes exactly (minimum points observed in the batch, maximum
total observed in the batch), independently of the order in which the
batch's cases arrived. -/
theorem grading_end_batch_aggregation (db : DB) (cases : List SubmissionTestCase)
    (sid : Nat) (sub : Submission) (h : db sid = some sub)
    (hb : ∀ c ∈ cases.filter fun c => c.submission_id == sid, c.batch ≠ some 0) :
    ((gradedSub (on_grading_end db cases sid) sid).map fun s => s.case_points) =
      some (pyRound1 (groupedPoints (cases.filter fun c => c.submission_id == sid))) ∧
    ((gradedSub (on_grading_end db cases sid) sid).map fun s => s.case_total) =
      some (pyRound1 (groupedTotal (cases.filter fun c => c.submission_id == sid))) ∧
    (∀ cs', (cases.filter fun c => c.submission_id == sid).Perm cs' →
      groupedPoints cs' = groupedPoints (cases.filter fun c => c.submission_id == sid) ∧
      groupedTotal cs' = groupedTotal (cases.filter fun c => c.submission_id == sid)) := by
  obtain ⟨hgp, hgt⟩ := gradeAgg_grouped (cases.filter fun c => c.submission_id == sid) hb
  refine ⟨?_, ?_,
    fun cs' hper => ⟨(grouped_perm hper).1.symm, (grouped_perm hper).2.symm⟩⟩
  · simp [on_grading_end, h, gradedSub, dbSet, ← hgp]
  · simp [on_grading_end, h, gradedSub, dbSet, ← hgt]
theorem grading_end_batch_aggregation_witness :
    ((gradedSub (on_grading_end exDb [rowB3, rowB5] 1) 1).map fun s => s.case_points) =
      some 3 ∧
    ((gradedSub (on_grading_end exDb [rowB5, rowB3] 1) 1).map fun s => s.case_total) =
      some 5 :=
  ⟨(grading_end_batch_aggregation exDb [rowB3, rowB5] 1 exSub rfl (by decide)).1.trans
      (by with_unfolding_all decide),
   (grading_end_batch_aggregation exDb [rowB5, rowB3] 1 exSub rfl (by decide)).2.1.trans
      (by with_unfolding_all decide)⟩

end JudgeBridge
